import Mathlib

/-!
# Verification of the marvin `githubservice` aggregation pipeline

A shallow embedding of `src/githubservice/githubservice.go` and proofs about
it.

Modelling conventions, fixed once for the whole file:

* **Time.** Go `time.Time` instants are modelled as exact integers counting
  hours (`ℤ`).  `time.Since(t)` is `now - t` (in hours), `a.After(b)` is
  `b < a`, and `time.Now().AddDate(0, 0, -days)` is `now - days * 24`.
  The two fractional comparisons of the source are transcribed exactly:
  `time.Since(t).Hours() <= float64(days)*24` becomes
  `now - t ≤ days * 24`, and `time.Since(t).Hours()/24 < float64(days)`
  becomes `now - t < days * 24` (both sides multiplied by the positive
  constant 24; exact arithmetic, no rounding).

* **The remote provider.** Each paginated GitHub endpoint is modelled by the
  ordered sequence of responses it would give to the successive page
  requests of one Go `for` loop: a `List (Except ε (List α))`.  The end of
  the list plays the role of `resp.NextPage == 0`; an `Except.error` entry is
  a failed fetch.  The per-pull-request commit endpoint
  (`client.PullRequests.ListCommits`) is a function
  `Nat → Nat → Except ε (List RepositoryCommit × Nat)` taking the PR number
  and the requested page (the Go zero value `0` stands for the first page)
  and returning the page's commits together with the response's `NextPage`.

* **Errors.** Go's `error` (nil / non-nil) is `Option ε` for an abstract
  error type `ε`; a Go slice/map whose `nil` value is distinguishable from an
  empty one is an `Option (List _)` where that distinction is observable.

* **Strings.** Label processing works on `String.data` (lists of characters)
  so that everything reduces in the kernel; `strings.ToLower` is a
  per-character `Char.toLower`, and `strings.Contains` is an explicit
  substring scan defined below.
-/

namespace Marvin

/-- `github.Repository`, restricted to the fields the service reads:
`Name` and `PushedAt` (an instant, in hours). -/
structure Repository where
  name : String
  pushedAt : ℤ
deriving DecidableEq

/-- `github.Label`, restricted to `Name`. -/
structure Label where
  name : String
deriving DecidableEq

/-- `github.Issue`, restricted to `Labels`. -/
structure Issue where
  labels : List Label
deriving DecidableEq

/-- `github.PullRequest`, restricted to `Number`, `CreatedAt`, `UpdatedAt`
(instants in hours). -/
structure PullRequest where
  number : Nat
  createdAt : ℤ
  updatedAt : ℤ
deriving DecidableEq

/-- `github.RepositoryCommit`, restricted to `SHA` and `Parents`
(the list of parent SHAs; the source only ever takes its length). -/
structure RepositoryCommit where
  sha : String
  parents : List String
deriving DecidableEq

/-! ## The generic pagination loop -/

/-- The pagination loop shared verbatim by `loadIssuesForAssignee`,
`loadIssuesForRepo`, `loadCommitsForRepo`, `loadReposForOrganization` and
`loadPRsForRepo` (githubservice.go:52-67, 81-96, 110-125, 139-154, 171-185):
fetch a page; on error record it and break; otherwise append the items; stop
when the provider reports no next page.  `pages` is the provider's response
sequence as described in the module docstring. -/
def paginate {ε α : Type} : List (Except ε (List α)) → List α × Option ε
  | [] => ([], none)
  | Except.error err :: _ => ([], some err)
  | Except.ok items :: rest =>
      let r := paginate rest
      (items ++ r.1, r.2)

/-! ## Label-string classification (`getLabelString`, `is*Item`, lines 447-501) -/

/-- Per-character lowercasing; `strings.ToLower` of the source (label names in
this code base are ASCII, where the two agree). -/
def lowerChars : List Char → List Char
  | [] => []
  | c :: cs => Char.toLower c :: lowerChars cs

/-- Does `s` start with `pat`?  Helper for the substring scan. -/
def startsWithChars : List Char → List Char → Bool
  | _, [] => true
  | [], _ :: _ => false
  | c :: s, p :: ps => p == c && startsWithChars s ps

/-- `strings.Contains`: does `pat` occur contiguously in the character list?
Scans every suffix. -/
def containsSubChars (pat : List Char) : List Char → Bool
  | [] => startsWithChars [] pat
  | c :: rest => startsWithChars (c :: rest) pat || containsSubChars pat rest

/-- `strings.Contains(s, substr)` on our character-list view of strings. -/
def strContains (s : List Char) (pat : String) : Bool :=
  containsSubChars pat.data s

/-- `getLabelString` (githubservice.go:447-453): the lowercased label names
concatenated, each followed by one space.  Returned as a character list. -/
def getLabelString (labels : List Label) : List Char :=
  labels.foldl (fun retval label => retval ++ lowerChars label.name.data ++ [' ']) []

/-- `isSprintItem` (githubservice.go:473-476). -/
def isSprintItem (issue : Issue) : Bool :=
  let label := getLabelString issue.labels
  strContains label "sprint"

/-- `isInProgress` (githubservice.go:478-481). -/
def isInProgress (issue : Issue) : Bool :=
  let label := getLabelString issue.labels
  strContains label "in" && strContains label "progress"

/-- `isReadyForQA` (githubservice.go:483-486). -/
def isReadyForQA (issue : Issue) : Bool :=
  let label := getLabelString issue.labels
  strContains label "ready" && strContains label "for" && strContains label "qa"

/-- `isReadyForReview` (githubservice.go:488-491); unused by the six canonical
buckets but part of the classifier. -/
def isReadyForReview (issue : Issue) : Bool :=
  let label := getLabelString issue.labels
  strContains label "ready" && strContains label "for" && strContains label "review"

/-- `isQAPass` (githubservice.go:493-496). -/
def isQAPass (issue : Issue) : Bool :=
  let label := getLabelString issue.labels
  strContains label "qa" && strContains label "pass"

/-- `isDone` (githubservice.go:498-501). -/
def isDone (issue : Issue) : Bool :=
  let label := getLabelString issue.labels
  strContains label "done"

/-- `isProductBacklogItem` (githubservice.go:468-471); defined but unused by
any public operation. -/
def isProductBacklogItem (issue : Issue) : Bool :=
  let label := getLabelString issue.labels
  strContains label "product" && strContains label "backlog"

/-- `isBacklogItem` (githubservice.go:459-466): true exactly when none of the
five specific rules match. -/
def isBacklogItem (issue : Issue) : Bool :=
  if isSprintItem issue || isInProgress issue || isReadyForQA issue
      || isQAPass issue || isDone issue then
    false
  else
    true

/-- How many of the six canonical buckets (Sprint, InProgress, ReadyForQA,
QAPass, Done, Backlog) an issue falls into. -/
def bucketCount (issue : Issue) : Nat :=
  (([isSprintItem issue, isInProgress issue, isReadyForQA issue,
     isQAPass issue, isDone issue, isBacklogItem issue]).filter id).length

/-! ## Commit membership test (`isCommitInList`, lines 503-512) -/

/-- `isCommitInList` (githubservice.go:503-512): exact SHA match against any
commit of the list. -/
def isCommitInList (commit : RepositoryCommit) : List RepositoryCommit → Bool
  | [] => false
  | listCommit :: rest =>
      if commit.sha = listCommit.sha then true else isCommitInList commit rest

/-! ## The PR-commit walk (`loadCommitsFromAllRepoPRs`, lines 190-247) -/

/-- The inner loop of `loadCommitsFromAllRepoPRs` (githubservice.go:210-237),
over the pull requests of one fetched page.  `cf` is the
`PullRequests.ListCommits` endpoint (PR number, page ↦ commits, next page);
the source calls it exactly once per PR, with the zero-valued page `0`, and
the returned next-page number is dead (`prOpt.Page = prResp.NextPage` stores
into a variable that is re-created on the next iteration).  State threaded
through: the accumulated pool `allPRCommits`, the last recorded error `e`,
and the returned flag is `remainingPRsAreOlder`. -/
def prPageLoop {ε : Type} (cf : Nat → Nat → Except ε (List RepositoryCommit × Nat))
    (timeLimit : ℤ) :
    List PullRequest → List RepositoryCommit → Option ε →
      List RepositoryCommit × Option ε × Bool
  | [], allPRCommits, e => (allPRCommits, e, false)
  | pullRequest :: rest, allPRCommits, e =>
      if pullRequest.createdAt < timeLimit ∧ pullRequest.updatedAt < timeLimit then
        -- PR is older than time box: stop processing (sets remainingPRsAreOlder).
        (allPRCommits, e, true)
      else
        match cf pullRequest.number 0 with
        | Except.error err => prPageLoop cf timeLimit rest allPRCommits (some err)
        | Except.ok (prCommits, _nextPage) =>
            prPageLoop cf timeLimit rest (allPRCommits ++ prCommits) e

/-- The outer page loop of `loadCommitsFromAllRepoPRs`
(githubservice.go:203-244): fetch a page of pull requests (sorted by update
time descending by the request options); on error record it and break;
otherwise run the inner loop, then stop if this was the last page or an
older PR was seen. -/
def prOuterLoop {ε : Type} (cf : Nat → Nat → Except ε (List RepositoryCommit × Nat))
    (timeLimit : ℤ) :
    List (Except ε (List PullRequest)) → List RepositoryCommit → Option ε →
      List RepositoryCommit × Option ε
  | [], allPRCommits, e => (allPRCommits, e)
  | Except.error err :: _, allPRCommits, _ => (allPRCommits, some err)
  | Except.ok pullRequests :: restPages, allPRCommits, e =>
      match prPageLoop cf timeLimit pullRequests allPRCommits e with
      | (acc, e2, remainingPRsAreOlder) =>
          if restPages.isEmpty || remainingPRsAreOlder then (acc, e2)
          else prOuterLoop cf timeLimit restPages acc e2

/-- `loadCommitsFromAllRepoPRs` (githubservice.go:190-247): the commit pool of
all of a repository's pull requests updated since the time limit, together
with the last recorded per-PR fetch error (if any).  `prPages` is the
response sequence of the `PullRequests.List` endpoint (state `open,closed`,
sorted by update time descending). -/
def loadCommitsFromAllRepoPRs {ε : Type}
    (cf : Nat → Nat → Except ε (List RepositoryCommit × Nat)) (timeLimit : ℤ)
    (prPages : List (Except ε (List PullRequest))) :
    List RepositoryCommit × Option ε :=
  prOuterLoop cf timeLimit prPages [] none

/-! ## Single-repository direct commits (`masterCommitsForSingleRepo`, 382-404) -/

/-- `masterCommitsForSingleRepo` (githubservice.go:382-404).  `branchPages`
is the response sequence of `Repositories.ListCommits` (the branch history
since the time limit).  Note the source's error handling, kept faithfully:
the error of the branch-history fetch is assigned to `err` and then
immediately overwritten by the error of the PR-commit fetch, so only the
latter is ever tested; on it the function returns `(nil, 0, err)`.  The
direct-commit filter keeps branch commits with at most one parent whose SHA
is not matched by `lambda` against the PR pool, and the returned count is
the number of all fetched branch commits. -/
def masterCommitsForSingleRepo {ε : Type}
    (branchPages : List (Except ε (List RepositoryCommit)))
    (cf : Nat → Nat → Except ε (List RepositoryCommit × Nat))
    (prPages : List (Except ε (List PullRequest)))
    (now : ℤ) (days : Nat)
    (lambda : RepositoryCommit → List RepositoryCommit → Bool) :
    Option (List RepositoryCommit) × Nat × Option ε :=
  let timeLimit : ℤ := now - (days : ℤ) * 24
  let commits := (paginate branchPages).1      -- `err :=` result discarded below
  let r := loadCommitsFromAllRepoPRs cf timeLimit prPages
  let allPRCommits := r.1
  match r.2 with
  | some err => (none, 0, some err)
  | none =>
      let masterCommits := commits.filter (fun commit =>
        decide (commit.parents.length ≤ 1) && !(lambda commit allPRCommits))
      (some masterCommits, commits.length, none)

/-! ## Repository activity filter (`loadActiveReposForOrganization`, 249-267) -/

/-- Lexicographic `≤` on character lists: the order Go's `<` induces on
(ASCII) strings, made reflexive. -/
def charsLe : List Char → List Char → Bool
  | [], _ => true
  | _ :: _, [] => false
  | a :: as, b :: bs => if a = b then charsLe as bs else decide (a < b)

/-- Modelled from the spec: the sorting step `sort.Sort(...)`.  The body of
`sort.Sort` lives in Go's standard library, outside this repository's
sources; the spec (§4.2, §4.4) specifies a stable ascending sort, which is
what stable insertion realises.  `le` must be the non-strict version of the
sorter's `Less`. -/
def insertSorted {α : Type} (le : α → α → Bool) (a : α) : List α → List α
  | [] => [a]
  | b :: l => if le a b then a :: b :: l else b :: insertSorted le a l

/-- Modelled from the spec: stable insertion sort (see `insertSorted`). -/
def sortStable {α : Type} (le : α → α → Bool) : List α → List α
  | [] => []
  | a :: l => insertSorted le a (sortStable le l)

/-- The key `RepositoryNameSorter.Less` compares (githubservice.go:303-310):
the lowercased repository name, as a character list. -/
def repoKey (r : Repository) : List Char :=
  lowerChars r.name.data

/-- Non-strict version of `RepositoryNameSorter.Less`
(githubservice.go:308-310). -/
def repoLe (a b : Repository) : Bool :=
  charsLe (repoKey a) (repoKey b)

/-- `loadActiveReposForOrganization` (githubservice.go:249-267): fetch all
repositories, record (but do not return early on) a fetch error, keep those
pushed to within the day window (`time.Since(PushedAt).Hours() <=
float64(days)*24`, boundary inclusive), and sort by lowercased name
(`sort.Sort(RepositoryNameSorter(...))`, modelled by the stable
`sortStable repoLe`). -/
def loadActiveReposForOrganization {ε : Type}
    (repoPages : List (Except ε (List Repository))) (now : ℤ) (days : Nat) :
    List Repository × Option ε :=
  let r := paginate repoPages
  let activeRepos := r.1.filter (fun repo => decide (now - repo.pushedAt ≤ (days : ℤ) * 24))
  (sortStable repoLe activeRepos, r.2)

/-! ## Open-PR aggregation (`loadOpenPRsForOrganization`, 269-301) -/

/-- The inner loop of `loadOpenPRsForOrganization` (githubservice.go:286-295)
over one repository's fetched open pull requests: a PR open for fewer than
`daysPROpen` days hits the `break`, ending the whole repository's loop; an
old-enough PR is appended.  The source's test is
`time.Since(CreatedAt).Hours()/24 < float64(daysPROpen)`, transcribed
exactly as `now - createdAt < daysPROpen * 24`. -/
def prFilterLoop (now : ℤ) (daysPROpen : Nat) : List PullRequest → List PullRequest
  | [] => []
  | pullRequest :: rest =>
      if now - pullRequest.createdAt < (daysPROpen : ℤ) * 24 then
        []  -- break: these PRs are too new for us to care about
      else
        pullRequest :: prFilterLoop now daysPROpen rest

/-- The repository loop of `loadOpenPRsForOrganization`
(githubservice.go:279-296): fetch each active repository's open PRs
(`loadPRsForRepo`, i.e. `paginate` of `prFetch name`); on a fetch error
record it and break out of the repository loop; otherwise accumulate the
repository's surviving PRs. -/
def repoPRLoop {ε : Type} (prFetch : String → List (Except ε (List PullRequest)))
    (now : ℤ) (daysPROpen : Nat) :
    List Repository → List PullRequest → Option ε → List PullRequest × Option ε
  | [], allOpenPRs, e => (allOpenPRs, e)
  | repo :: rest, allOpenPRs, e =>
      match paginate (prFetch repo.name) with
      | (_, some err) => (allOpenPRs, some err)
      | (pullRequests, none) =>
          repoPRLoop prFetch now daysPROpen rest
            (allOpenPRs ++ prFilterLoop now daysPROpen pullRequests) e

/-- Non-strict version of `PROpenDurationSorter.Less`
(githubservice.go:315-317): by creation instant. -/
def prLe (a b : PullRequest) : Bool :=
  decide (a.createdAt ≤ b.createdAt)

/-- `loadOpenPRsForOrganization` (githubservice.go:269-301): restrict to the
active repositories (recording, not propagating early, an activity-fetch
error), collect each one's surviving open PRs, and sort the concatenation by
creation time (`sort.Sort(PROpenDurationSorter(...))`, modelled by the
stable `sortStable prLe`). -/
def loadOpenPRsForOrganization {ε : Type}
    (repoPages : List (Except ε (List Repository)))
    (prFetch : String → List (Except ε (List PullRequest)))
    (daysPROpen daysSinceLastProjectActivity : Nat) (now : ℤ) :
    List PullRequest × Option ε :=
  let a := loadActiveReposForOrganization repoPages now daysSinceLastProjectActivity
  let r := repoPRLoop prFetch now daysPROpen a.1 [] a.2
  (sortStable prLe r.1, r.2)

/-! ## Organization-wide commit scan (`makeCommitsList`, 342-380) -/

/-- The full remote provider an organization-wide scan consumes: the
repository-list endpooint plus, per repository name, the branch-commit
pages, the per-PR commit endpoint and the PR-list pages. -/
structure OrgProvider (ε : Type) where
  repoPages : List (Except ε (List Repository))
  branchPages : String → List (Except ε (List RepositoryCommit))
  prCommitFetch : String → Nat → Nat → Except ε (List RepositoryCommit × Nat)
  prPages : String → List (Except ε (List PullRequest))

/-- `masterCommitsForSingleRepo` instantiated with the provider's endpoints
for one repository name (the call at githubservice.go:356 and 369). -/
def masterForRepo {ε : Type} (P : OrgProvider ε)
    (lambda : RepositoryCommit → List RepositoryCommit → Bool)
    (now : ℤ) (days : Nat) (repoName : String) :
    Option (List RepositoryCommit) × Nat × Option ε :=
  masterCommitsForSingleRepo (P.branchPages repoName) (P.prCommitFetch repoName)
    (P.prPages repoName) now days lambda

/-- The repository loop of the organization branch of `makeCommitsList`
(githubservice.go:354-366): any single repository's error aborts the whole
scan with `(nil, 0, err)`; a repository with an empty direct-commit list is
skipped (its name is not added and its total is not counted).  The Go map
`repoToMasterCommits` is modelled as an association list in iteration
order. -/
def orgLoop {ε : Type} (P : OrgProvider ε)
    (lambda : RepositoryCommit → List RepositoryCommit → Bool)
    (now : ℤ) (days : Nat) :
    List Repository → List (String × List RepositoryCommit) → Nat →
      Option (List (String × List RepositoryCommit)) × Nat × Option ε
  | [], repoToMasterCommits, totalCommits => (some repoToMasterCommits, totalCommits, none)
  | repository :: rest, repoToMasterCommits, totalCommits =>
      match masterForRepo P lambda now days repository.name with
      | (_, _, some err) => (none, 0, some err)
      | (mc, totalRepoCommits, none) =>
          let masterCommits := mc.getD []
          if masterCommits.length > 0 then
            orgLoop P lambda now days rest
              (repoToMasterCommits ++ [(repository.name, masterCommits)])
              (totalCommits + totalRepoCommits)
          else
            orgLoop P lambda now days rest repoToMasterCommits totalCommits

/-- `makeCommitsList` (githubservice.go:342-380).  An empty `repo` argument
scans the whole organization: only repositories passing the activity filter,
aborting on the first repository-level failure; a non-empty `repo` queries
that single repository (and keeps an empty direct list as an entry). -/
def makeCommitsList {ε : Type} (P : OrgProvider ε) (repo : String)
    (lambda : RepositoryCommit → List RepositoryCommit → Bool)
    (days : Nat) (now : ℤ) :
    Option (List (String × List RepositoryCommit)) × Nat × Option ε :=
  if repo = "" then
    match loadActiveReposForOrganization P.repoPages now days with
    | (_, some err) => (none, 0, some err)
    | (repositories, none) => orgLoop P lambda now days repositories [] 0
  else
    match masterForRepo P lambda now days repo with
    | (_, _, some err) => (none, 0, some err)
    | (mc, totalRepoCommits, none) => (some [(repo, mc.getD [])], totalRepoCommits, none)

/-! ## Concrete inputs used by witnesses and counterexamples -/

/-- A branch commit with one parent and a SHA matched by nothing. -/
def cA : RepositoryCommit := ⟨"a", ["p1"]⟩

/-- A merge commit: two parents. -/
def cB : RepositoryCommit := ⟨"b", ["p1", "p2"]⟩

/-- A one-parent branch commit whose SHA also sits in the PR pool. -/
def cC : RepositoryCommit := ⟨"c", ["p1"]⟩

/-- The PR-pool copy of `cC`'s SHA. -/
def cPoolC : RepositoryCommit := ⟨"c", ["p1"]⟩

/-- A recent pull request (inside every time window used below). -/
def prX : PullRequest := ⟨4, 100, 100⟩

/-- One successful page of branch commits. -/
def demoBranchPages1 : List (Except String (List RepositoryCommit)) :=
  [Except.ok [cA, cB, cC]]

/-- A branch-commit fetch that fails on the second page. -/
def demoBranchPagesFail : List (Except String (List RepositoryCommit)) :=
  [Except.ok [cA], Except.error "netfail"]

/-- Commit endpoint knowing only PR 4. -/
def cf1 : Nat → Nat → Except String (List RepositoryCommit × Nat) :=
  fun number _page =>
    if number = 4 then Except.ok ([cPoolC], 0) else Except.error "unknown PR"

/-- One page holding the single pull request `prX`. -/
def prPages1 : List (Except String (List PullRequest)) := [Except.ok [prX]]

/-- A pull request whose commit fetch will fail. -/
def prFail : PullRequest := ⟨1, 100, 100⟩

/-- A pull request after the failing one, with a healthy commit fetch. -/
def prOk : PullRequest := ⟨2, 100, 100⟩

/-- The commit of `prOk`. -/
def cOk : RepositoryCommit := ⟨"okc", ["p1"]⟩

/-- Commit endpoint failing for PR 1, succeeding for PR 2. -/
def demoFailCf : Nat → Nat → Except String (List RepositoryCommit × Nat) :=
  fun number _page =>
    if number = 1 then Except.error "boom"
    else if number = 2 then Except.ok ([cOk], 0)
    else Except.error "unknown PR"

/-- PR updated one day before `now = 1000`. -/
def pr1 : PullRequest := ⟨1, 976, 976⟩

/-- PR updated five days before `now = 1000`. -/
def pr2 : PullRequest := ⟨2, 880, 880⟩

/-- PR updated forty days before `now = 1000`: outside a thirty-day box. -/
def pr3 : PullRequest := ⟨3, 40, 40⟩

/-- Commit of `pr1`. -/
def c5a : RepositoryCommit := ⟨"c5a", ["p1"]⟩

/-- Commit of `pr2`. -/
def c5b : RepositoryCommit := ⟨"c5b", ["p1"]⟩

/-- Commit of `pr3`; must never enter the pool. -/
def c5bad : RepositoryCommit := ⟨"c5bad", ["p1"]⟩

/-- Commit endpoint for the early-exit example: serves PRs 1 and 2 only. -/
def cf5 : Nat → Nat → Except String (List RepositoryCommit × Nat) :=
  fun number _page =>
    if number = 1 then Except.ok ([c5a], 0)
    else if number = 2 then Except.ok ([c5b], 0)
    else Except.error "commits must not be fetched"

/-- Like `cf5` but with data for PR 3: the walk must never ask for it. -/
def cf5x : Nat → Nat → Except String (List RepositoryCommit × Nat) :=
  fun number page =>
    if number = 3 then Except.ok ([c5bad], 0) else cf5 number page

/-- A recent pull request whose commit list spans two pages. -/
def prPaged : PullRequest := ⟨7, 100, 100⟩

/-- First-page commit of `prPaged`. -/
def dcA : RepositoryCommit := ⟨"d1", ["p1"]⟩

/-- Second-page commit of `prPaged`: the provider has it, the walk drops it. -/
def dcB : RepositoryCommit := ⟨"d2", ["p1"]⟩

/-- Paged commit endpoint for PR 7: page 0 yields `dcA` and points at page 2,
page 2 yields `dcB` and is last. -/
def pagedCf : Nat → Nat → Except String (List RepositoryCommit × Nat) :=
  fun number page =>
    if number = 7 ∧ page = 0 then Except.ok ([dcA], 2)
    else if number = 7 ∧ page = 2 then Except.ok ([dcB], 0)
    else Except.error "no such page"

/-- A repository pushed at `now = 1000`: passes every activity window. -/
def activeRepo : Repository := ⟨"r", 1000⟩

/-- An open PR created two days before `now = 1000`. -/
def youngPR : PullRequest := ⟨1, 952, 952⟩

/-- An open PR created ten days before `now = 1000`, listed after `youngPR`. -/
def oldPR : PullRequest := ⟨2, 760, 760⟩

/-- One page holding the single repository `activeRepo`. -/
def demoRepoPages : List (Except String (List Repository)) := [Except.ok [activeRepo]]

/-- Open-PR endpoint: every repository answers `[youngPR, oldPR]`. -/
def demoPRFetch : String → List (Except String (List PullRequest)) :=
  fun _ => [Except.ok [youngPR, oldPR]]

/-- A repository whose PR-list endpoint fails. -/
def badRepo : Repository := ⟨"bad", 1000⟩

/-- Provider for the organization-scan witness: one active repository whose
pull-request listing fails. -/
def demoOrgP : OrgProvider String :=
  ⟨[Except.ok [badRepo]], fun _ => [], fun _ _ _ => Except.error "x",
    fun _ => [Except.error "boom"]⟩

/-- An issue labelled Sprint and Done: two canonical buckets at once. -/
def demoOverlapIssue : Issue := ⟨[⟨"Sprint"⟩, ⟨"Done"⟩]⟩

/-- An issue labelled Done only. -/
def demoDoneIssue : Issue := ⟨[⟨"Done"⟩]⟩

/-- Pushed one day before `now = 1000`. -/
def repoDay1 : Repository := ⟨"beta", 976⟩

/-- Pushed forty days before `now = 1000`: outside a thirty-day window. -/
def repoDay40 : Repository := ⟨"gamma", 40⟩

/-- Pushed five days before `now = 1000`; name sorts before `repoDay1`. -/
def repoDay5 : Repository := ⟨"Alpha", 880⟩

/-- One fetched page with the three repositories above, unsorted. -/
def demoRepoPageLists : List (List Repository) := [[repoDay1, repoDay40, repoDay5]]

/-! # Theorems -/

/-! ## The paginator (C4) -/

theorem paginate_cons_ok {ε α : Type} (items : List α) (rest : List (Except ε (List α))) :
    paginate (Except.ok items :: rest) =
      ((items ++ (paginate rest).1, (paginate rest).2) : List α × Option ε) := rfl

/-- Helper: all pages succeed, so the result is the full ordered
concatenation with no error. -/
theorem paginate_ok {ε α : Type} (pages : List (List α)) :
    paginate (ε := ε) (pages.map Except.ok) = (pages.flatten, none) := by
  induction pages with
  | nil => rfl
  | cons p ps ih => simp [paginate_cons_ok, ih]

/-- Helper: a failure at page `k` keeps the items of pages `1..k-1` and
returns the error; everything after the failing page is never consulted. -/
theorem paginate_ok_then_error {ε α : Type} (pages : List (List α)) (err : ε)
    (rest : List (Except ε (List α))) :
    paginate (pages.map Except.ok ++ Except.error err :: rest) = (pages.flatten, some err) := by
  induction pages with
  | nil => rfl
  | cons p ps ih => simp [paginate_cons_ok, ih]

/-- C4: For every paginated fetch, the result equals the ordered
concatenation of all pages' items (intra-page and inter-page order
preserved); if the fetch of page `k` fails, the operation stops without
retry (nothing at or after the failing page is consulted) and returns the
items accumulated from pages `1..k-1` together with the error, not an empty
result. -/
theorem paginate_concatenation_and_partial_failure {ε α : Type} :
    (∀ pages : List (List α),
        paginate (ε := ε) (pages.map Except.ok) = (pages.flatten, none))
    ∧ ∀ (pages : List (List α)) (err : ε) (rest : List (Except ε (List α))),
        paginate (pages.map Except.ok ++ Except.error err :: rest) =
          (pages.flatten, some err) :=
  ⟨paginate_ok, paginate_ok_then_error⟩

/-! ## Issue classification (C9) -/

/-- C9 counterexample: the claim "classifying with the six canonical rules
places every labeled issue in exactly one bucket, and no issue is counted in
more than one of the six" is false: the issue labelled Sprint and Done is in
two buckets. -/
theorem bucket_count_not_always_one :
    ¬ ∀ issue : Issue, issue.labels ≠ [] → bucketCount issue = 1 := by
  intro h
  have h1 := h demoOverlapIssue (by decide)
  have h2 : bucketCount demoOverlapIssue = 2 := by decide
  rw [h2] at h1
  exact absurd h1 (by decide)

/-- C9 (amended): for every labeled issue, Backlog holds iff none of Sprint,
InProgress, ReadyForQA, QAPass, Done matches; consequently each labeled
issue lands in at least one of the six canonical buckets, and in exactly one
whenever Backlog holds — but the five specific buckets may overlap each
other, so "exactly one" does not hold in general. -/
theorem six_bucket_cover (issue : Issue) (_hl : issue.labels ≠ []) :
    1 ≤ bucketCount issue
    ∧ (isBacklogItem issue = true ↔
        (isSprintItem issue = false ∧ isInProgress issue = false
          ∧ isReadyForQA issue = false ∧ isQAPass issue = false
          ∧ isDone issue = false))
    ∧ (isBacklogItem issue = true → bucketCount issue = 1) := by
  cases hS : isSprintItem issue <;> cases hI : isInProgress issue <;>
    cases hR : isReadyForQA issue <;> cases hQ : isQAPass issue <;>
      cases hD : isDone issue <;>
        simp [bucketCount, isBacklogItem, hS, hI, hR, hQ, hD]

/-- C9 witness: the amended theorem applied to the Done-labelled issue. -/
theorem six_bucket_cover_witness : 1 ≤ bucketCount demoDoneIssue :=
  (six_bucket_cover demoDoneIssue (by decide)).1

/-! ## The PR-commit walk (C5, C6, C3, C1, C10) -/

theorem prPageLoop_cons_old {ε : Type} {cf : Nat → Nat → Except ε (List RepositoryCommit × Nat)}
    {timeLimit : ℤ} {p : PullRequest} {rest : List PullRequest}
    {acc : List RepositoryCommit} {e : Option ε}
    (h : p.createdAt < timeLimit ∧ p.updatedAt < timeLimit) :
    prPageLoop cf timeLimit (p :: rest) acc e = (acc, e, true) := by
  simp [prPageLoop, h]

theorem prPageLoop_cons_fail {ε : Type} {cf : Nat → Nat → Except ε (List RepositoryCommit × Nat)}
    {timeLimit : ℤ} {p : PullRequest} {rest : List PullRequest}
    {acc : List RepositoryCommit} {e : Option ε} {err : ε}
    (h : ¬(p.createdAt < timeLimit ∧ p.updatedAt < timeLimit))
    (hcf : cf p.number 0 = Except.error err) :
    prPageLoop cf timeLimit (p :: rest) acc e = prPageLoop cf timeLimit rest acc (some err) := by
  simp [prPageLoop, h, hcf]

theorem prPageLoop_cons_okfetch {ε : Type} {cf : Nat → Nat → Except ε (List RepositoryCommit × Nat)}
    {timeLimit : ℤ} {p : PullRequest} {rest : List PullRequest}
    {acc : List RepositoryCommit} {e : Option ε}
    {cs : List RepositoryCommit} {np : Nat}
    (h : ¬(p.createdAt < timeLimit ∧ p.updatedAt < timeLimit))
    (hcf : cf p.number 0 = Except.ok (cs, np)) :
    prPageLoop cf timeLimit (p :: rest) acc e = prPageLoop cf timeLimit rest (acc ++ cs) e := by
  simp [prPageLoop, h, hcf]

/-- Helper for C5: the walk over `pre ++ old :: post` under `cf` computes the
same pool and error as the walk over `pre` alone under any `cf'` that agrees
with `cf` on the PRs of `pre` — the commits of `old` and of everything after
it are never requested. -/
theorem prPageLoop_early_agree {ε : Type}
    (cf cf' : Nat → Nat → Except ε (List RepositoryCommit × Nat)) (timeLimit : ℤ)
    (old : PullRequest) (post : List PullRequest)
    (h₁ : old.createdAt < timeLimit) (h₂ : old.updatedAt < timeLimit) :
    ∀ (pre : List PullRequest) (acc : List RepositoryCommit) (e : Option ε),
      (∀ p ∈ pre, cf' p.number = cf p.number) →
      (prPageLoop cf timeLimit (pre ++ old :: post) acc e).1
          = (prPageLoop cf' timeLimit pre acc e).1
        ∧ (prPageLoop cf timeLimit (pre ++ old :: post) acc e).2.1
          = (prPageLoop cf' timeLimit pre acc e).2.1 := by
  intro pre
  induction pre with
  | nil =>
      intro acc e _
      rw [List.nil_append, prPageLoop_cons_old ⟨h₁, h₂⟩]
      exact ⟨rfl, rfl⟩
  | cons p ps ih =>
      intro acc e hag
      have hcf : cf' p.number = cf p.number := hag p (by simp)
      have hag' : ∀ q ∈ ps, cf' q.number = cf q.number := fun q hq => hag q (by simp [hq])
      rw [List.cons_append]
      by_cases hp : p.createdAt < timeLimit ∧ p.updatedAt < timeLimit
      · rw [prPageLoop_cons_old hp, prPageLoop_cons_old hp]
        exact ⟨rfl, rfl⟩
      · cases hcase : cf p.number 0 with
        | error err =>
            rw [prPageLoop_cons_fail hp hcase,
              prPageLoop_cons_fail hp (by rw [hcf]; exact hcase)]
            exact ih acc (some err) hag'
        | ok val =>
            rw [prPageLoop_cons_okfetch hp (by rw [hcase]),
              prPageLoop_cons_okfetch hp (by rw [hcf, hcase])]
            exact ih (acc ++ val.1) e hag'

/-- Helper for C5: a walk whose page contains an out-of-window PR always ends
with `remainingPRsAreOlder = true`. -/
theorem prPageLoop_flag_true {ε : Type}
    (cf : Nat → Nat → Except ε (List RepositoryCommit × Nat)) (timeLimit : ℤ)
    (old : PullRequest) (post : List PullRequest)
    (h₁ : old.createdAt < timeLimit) (h₂ : old.updatedAt < timeLimit) :
    ∀ (pre : List PullRequest) (acc : List RepositoryCommit) (e : Option ε),
      (prPageLoop cf timeLimit (pre ++ old :: post) acc e).2.2 = true := by
  intro pre
  induction pre with
  | nil =>
      intro acc e
      rw [List.nil_append, prPageLoop_cons_old ⟨h₁, h₂⟩]
  | cons p ps ih =>
      intro acc e
      rw [List.cons_append]
      by_cases hp : p.createdAt < timeLimit ∧ p.updatedAt < timeLimit
      · rw [prPageLoop_cons_old hp]
      · cases hcase : cf p.number 0 with
        | error err => rw [prPageLoop_cons_fail hp hcase]; exact ih acc (some err)
        | ok val => rw [prPageLoop_cons_okfetch hp (by rw [hcase])]; exact ih (acc ++ val.1) e

/-- C5: In the PR-commit walk over pull requests sorted by update time
descending, as soon as a pull request is reached whose creation and update
instants are both before the time limit, the walk stops: the result is the
same as a walk over only the preceding PRs of that page — under any commit
endpoint agreeing on those PRs — so neither that PR's commits, nor any later
PR's commits, nor any further PR page is ever requested. -/
theorem commit_walk_early_exit {ε : Type}
    (cf cf' : Nat → Nat → Except ε (List RepositoryCommit × Nat)) (timeLimit : ℤ)
    (pre post : List PullRequest) (old : PullRequest)
    (rest : List (Except ε (List PullRequest)))
    (h₁ : old.createdAt < timeLimit) (h₂ : old.updatedAt < timeLimit)
    (hagree : ∀ p ∈ pre, cf' p.number = cf p.number) :
    loadCommitsFromAllRepoPRs cf timeLimit (Except.ok (pre ++ old :: post) :: rest)
      = loadCommitsFromAllRepoPRs cf' timeLimit [Except.ok pre] := by
  obtain ⟨hacc, herr⟩ := prPageLoop_early_agree cf cf' timeLimit old post h₁ h₂ pre [] none hagree
  have hflag := prPageLoop_flag_true cf timeLimit old post h₁ h₂ pre [] none
  unfold loadCommitsFromAllRepoPRs prOuterLoop
  rcases hL : prPageLoop cf timeLimit (pre ++ old :: post) [] none with ⟨acc, e2, b⟩
  rcases hR : prPageLoop cf' timeLimit pre [] none with ⟨acc', e2', b'⟩
  rw [hL] at hacc herr hflag
  rw [hR] at hacc herr
  simp only at hacc herr hflag
  subst hflag
  simp [hacc, herr]

/-- C5 witness: the spec's example.  PRs at day 1, day 5 and day 40 with a
30-day limit (`now = 1000`, limit `280`): the walk equals one over the first
two PRs only, even under an endpoint that differs at PR 3, and yields
exactly the commits of PRs 1 and 2 with no error. -/
theorem commit_walk_early_exit_witness :
    loadCommitsFromAllRepoPRs cf5 280
        (Except.ok [pr1, pr2, pr3] :: [Except.error "no more pages"])
      = ([c5a, c5b], none) :=
  (commit_walk_early_exit cf5 cf5x 280 [pr1, pr2] [] pr3 [Except.error "no more pages"]
      (by decide) (by decide)
      (by
        intro p hp
        funext page
        fin_cases hp <;> rfl)).trans
    (by decide)

/-- C6 (code bug): for the two-page commit list of pull request 7, the walk
merges only the first page's commit `dcA` into the pool; the second page
exists at the provider (`pagedCf 7 2`) but its commit `dcB` is never merged,
because the source never loops on `prResp.NextPage` (the assignment
`prOpt.Page = prResp.NextPage` is dead).  The spec requires the full
paginated commit set. -/
theorem pr_commit_walk_first_page_only :
    pagedCf 7 2 = Except.ok ([dcB], 0)
    ∧ loadCommitsFromAllRepoPRs pagedCf 0 [Except.ok [prPaged]] = ([dcA], none)
    ∧ dcB ∉ (loadCommitsFromAllRepoPRs pagedCf 0 [Except.ok [prPaged]]).1 :=
  ⟨rfl, by decide, by decide⟩

/-- Helper for C3: a run of in-window PRs whose fetches all succeed just
appends their commits, leaving the recorded error unchanged. -/
theorem prPageLoop_ok_run {ε : Type}
    (cf : Nat → Nat → Except ε (List RepositoryCommit × Nat)) (timeLimit : ℤ)
    (cs : PullRequest → List RepositoryCommit) (np : PullRequest → Nat) :
    ∀ (l tail : List PullRequest) (acc : List RepositoryCommit) (e : Option ε),
      (∀ p ∈ l, ¬(p.createdAt < timeLimit ∧ p.updatedAt < timeLimit)) →
      (∀ p ∈ l, cf p.number 0 = Except.ok (cs p, np p)) →
      prPageLoop cf timeLimit (l ++ tail) acc e
        = prPageLoop cf timeLimit tail (acc ++ (l.map cs).flatten) e := by
  intro l
  induction l with
  | nil => intro tail acc e _ _; simp
  | cons p ps ih =>
      intro tail acc e hw hok
      rw [List.cons_append, prPageLoop_cons_okfetch (hw p (by simp)) (hok p (by simp))]
      rw [ih tail (acc ++ cs p) e (fun q hq => hw q (by simp [hq]))
        (fun q hq => hok q (by simp [hq]))]
      simp

/-- C3 counterexample: with the commit fetch of PR 1 failing and that of
PR 2 succeeding, the walk does return the partial pool `[cOk]` together with
the recorded error — but the single-repository direct-commit computation
does not produce a result: it returns the nil list, a zero count and the
error, refuting the claim's "still proceeds and produces its result". -/
theorem pr_fetch_failure_aborts_direct_result :
    loadCommitsFromAllRepoPRs demoFailCf 0 [Except.ok [prFail, prOk]] = ([cOk], some "boom")
    ∧ (masterCommitsForSingleRepo demoBranchPages1 demoFailCf [Except.ok [prFail, prOk]]
        720 30 isCommitInList).1 = none :=
  ⟨by decide, by decide⟩

/-- C3 (amended): a commit-fetch failure for one PR is recorded but does not
abort the walk — every later PR of the scan is still processed and the
partial pool plus the recorded error are returned to the caller
(`masterCommitsForSingleRepo`); that caller, however, then aborts on the
recorded error, returning `(nil, 0, err)` instead of a direct-commit
result. -/
theorem pr_fetch_failure_partial_pool_then_abort {ε : Type}
    (branchPages : List (Except ε (List RepositoryCommit)))
    (cf : Nat → Nat → Except ε (List RepositoryCommit × Nat))
    (now : ℤ) (days : Nat)
    (lambda : RepositoryCommit → List RepositoryCommit → Bool)
    (pre post : List PullRequest) (failPR : PullRequest) (err : ε)
    (cs : PullRequest → List RepositoryCommit) (np : PullRequest → Nat)
    (hwindow : ∀ p ∈ pre ++ failPR :: post,
      ¬(p.createdAt < now - (days : ℤ) * 24 ∧ p.updatedAt < now - (days : ℤ) * 24))
    (hfail : cf failPR.number 0 = Except.error err)
    (hok : ∀ p ∈ pre ++ post, cf p.number 0 = Except.ok (cs p, np p)) :
    loadCommitsFromAllRepoPRs cf (now - (days : ℤ) * 24) [Except.ok (pre ++ failPR :: post)]
      = (((pre ++ post).map cs).flatten, some err)
    ∧ masterCommitsForSingleRepo branchPages cf [Except.ok (pre ++ failPR :: post)]
        now days lambda
      = (none, 0, some err) := by
  have hwpre : ∀ p ∈ pre,
      ¬(p.createdAt < now - (days : ℤ) * 24 ∧ p.updatedAt < now - (days : ℤ) * 24) :=
    fun p hp => hwindow p (by simp [hp])
  have hwfail : ¬(failPR.createdAt < now - (days : ℤ) * 24
      ∧ failPR.updatedAt < now - (days : ℤ) * 24) :=
    hwindow failPR (by simp)
  have hwpost : ∀ p ∈ post,
      ¬(p.createdAt < now - (days : ℤ) * 24 ∧ p.updatedAt < now - (days : ℤ) * 24) :=
    fun p hp => hwindow p (by simp [hp])
  have hokpre : ∀ p ∈ pre, cf p.number 0 = Except.ok (cs p, np p) :=
    fun p hp => hok p (by simp [hp])
  have hokpost : ∀ p ∈ post, cf p.number 0 = Except.ok (cs p, np p) :=
    fun p hp => hok p (by simp [hp])
  have hmain : loadCommitsFromAllRepoPRs cf (now - (days : ℤ) * 24)
      [Except.ok (pre ++ failPR :: post)]
      = (((pre ++ post).map cs).flatten, some err) := by
    unfold loadCommitsFromAllRepoPRs prOuterLoop
    rw [prPageLoop_ok_run cf (now - (days : ℤ) * 24) cs np pre (failPR :: post) [] none
        hwpre hokpre]
    rw [prPageLoop_cons_fail hwfail hfail]
    have := prPageLoop_ok_run cf (now - (days : ℤ) * 24) cs np post []
      ([] ++ (pre.map cs).flatten) (some err) hwpost hokpost
    rw [List.append_nil] at this
    rw [this]
    simp [prPageLoop]
  refine ⟨hmain, ?_⟩
  simp only [masterCommitsForSingleRepo, hmain]

/-- C3 witness: the amended theorem at the concrete failing scan (PR 1's
fetch fails, PR 2 contributes `cOk`). -/
theorem pr_fetch_failure_partial_pool_then_abort_witness :
    masterCommitsForSingleRepo demoBranchPages1 demoFailCf
        [Except.ok ([] ++ prFail :: [prOk])] 720 30 isCommitInList
      = (none, 0, some "boom") :=
  (pr_fetch_failure_partial_pool_then_abort demoBranchPages1 demoFailCf 720 30
      isCommitInList [] [prOk] prFail "boom" (fun _ => [cOk]) (fun _ => 0)
      (by decide)
      rfl
      (by
        intro p hp
        simp only [List.nil_append, List.mem_singleton] at hp
        subst hp
        rfl)).2

/-- Helper: `isCommitInList` returns `false` exactly when no pool commit has
a matching SHA. -/
theorem isCommitInList_eq_false_iff (c : RepositoryCommit) (l : List RepositoryCommit) :
    isCommitInList c l = false ↔ ∀ lc ∈ l, c.sha ≠ lc.sha := by
  induction l with
  | nil => simp [isCommitInList]
  | cons x xs ih =>
      by_cases h : c.sha = x.sha
      · simp [isCommitInList, h]
      · simp [isCommitInList, h, ih]

/-- C1: a branch commit enters the direct-commit (master) list iff it has at
most one parent and its SHA exactly matches no commit of the PR pool; the
returned total is the count of all fetched branch commits (merges and
PR-sourced ones included).  Stated for an error-free PR-commit fetch, the
case in which the filter runs. -/
theorem direct_commit_classification {ε : Type}
    (branchPages : List (Except ε (List RepositoryCommit)))
    (cf : Nat → Nat → Except ε (List RepositoryCommit × Nat))
    (prPages : List (Except ε (List PullRequest))) (now : ℤ) (days : Nat)
    (h : (loadCommitsFromAllRepoPRs cf (now - (days : ℤ) * 24) prPages).2 = none) :
    ∃ l, masterCommitsForSingleRepo branchPages cf prPages now days isCommitInList
        = (some l, (paginate branchPages).1.length, none)
      ∧ ∀ c : RepositoryCommit, c ∈ l ↔
          (c ∈ (paginate branchPages).1 ∧ c.parents.length ≤ 1
            ∧ ∀ lc ∈ (loadCommitsFromAllRepoPRs cf (now - (days : ℤ) * 24) prPages).1,
                c.sha ≠ lc.sha) := by
  refine ⟨((paginate branchPages).1).filter (fun commit =>
    decide (commit.parents.length ≤ 1)
      && !(isCommitInList commit (loadCommitsFromAllRepoPRs cf
            (now - (days : ℤ) * 24) prPages).1)), ?_, ?_⟩
  · simp only [masterCommitsForSingleRepo, h]
  · intro c
    simp only [List.mem_filter, Bool.and_eq_true, decide_eq_true_eq, Bool.not_eq_true',
      isCommitInList_eq_false_iff, and_assoc]

/-- C1 witness: the spec's example.  Branch commits `A` (one parent), `B`
(two parents), `C` (one parent, SHA in the PR pool): the total is 3, and the
direct list contains `A` but neither `B` nor `C`. -/
theorem direct_commit_classification_witness :
    (masterCommitsForSingleRepo demoBranchPages1 cf1 prPages1 720 30 isCommitInList).2.1 = 3
    ∧ ∃ l, (masterCommitsForSingleRepo demoBranchPages1 cf1 prPages1 720 30 isCommitInList).1
        = some l ∧ cA ∈ l ∧ cB ∉ l ∧ cC ∉ l := by
  obtain ⟨l, h1, h2⟩ :=
    direct_commit_classification demoBranchPages1 cf1 prPages1 720 30 (by decide)
  constructor
  · rw [h1]
    exact rfl
  · refine ⟨l, by rw [h1], ?_, ?_, ?_⟩
    · exact (h2 cA).2 (by decide)
    · intro hmem
      have := (h2 cB).1 hmem
      revert this
      decide
    · intro hmem
      have := (h2 cC).1 hmem
      revert this
      decide

/-- C10: when the branch-commit fetch fails but the PR-commit fetch
succeeds, the branch error is discarded (`err` is overwritten): the
operation reports no error, and its whole result equals the one it would
produce had the branch fetch delivered the same partial commits with no
error. -/
theorem branch_fetch_error_discarded {ε : Type}
    (branchPages : List (Except ε (List RepositoryCommit)))
    (cf : Nat → Nat → Except ε (List RepositoryCommit × Nat))
    (prPages : List (Except ε (List PullRequest))) (now : ℤ) (days : Nat)
    (lambda : RepositoryCommit → List RepositoryCommit → Bool) (e₁ : ε)
    (_h₁ : (paginate branchPages).2 = some e₁)
    (h₂ : (loadCommitsFromAllRepoPRs cf (now - (days : ℤ) * 24) prPages).2 = none) :
    (masterCommitsForSingleRepo branchPages cf prPages now days lambda).2.2 = none
    ∧ masterCommitsForSingleRepo branchPages cf prPages now days lambda
      = masterCommitsForSingleRepo [Except.ok (paginate branchPages).1] cf prPages
          now days lambda := by
  constructor
  · simp only [masterCommitsForSingleRepo, h₂]
  · simp only [masterCommitsForSingleRepo, h₂, paginate_cons_ok, paginate]
    simp

/-- C10 witness: a branch fetch failing on its second page (partial commits
`[cA]`, error `"netfail"`) with a healthy PR fetch: no error is reported. -/
theorem branch_fetch_error_discarded_witness :
    (masterCommitsForSingleRepo demoBranchPagesFail cf1 prPages1 720 30 isCommitInList).2.2
      = none :=
  (branch_fetch_error_discarded demoBranchPagesFail cf1 prPages1 720 30 isCommitInList
      "netfail" (by decide) (by decide)).1

/-! ## Order facts for the modelled stable sorts -/

theorem charsLe_refl : ∀ l : List Char, charsLe l l = true
  | [] => rfl
  | c :: cs => by simp [charsLe, charsLe_refl cs]

theorem charsLe_of_not : ∀ a b : List Char, charsLe a b = false → charsLe b a = true := by
  intro a
  induction a with
  | nil => intro b h; simp [charsLe] at h
  | cons x xs ih =>
      intro b h
      cases b with
      | nil => rfl
      | cons y ys =>
          by_cases hxy : x = y
          · subst hxy
            simp only [charsLe, if_pos rfl] at h ⊢
            exact ih ys h
          · simp only [charsLe, if_neg hxy] at h
            have hyx : y < x := by
              rcases lt_trichotomy x y with hlt | heq | hgt
              · exact absurd (decide_eq_true hlt) (by simp [h])
              · exact absurd heq hxy
              · exact hgt
            simp [charsLe, if_neg (Ne.symm hxy), hyx]

theorem charsLe_trans : ∀ a b c : List Char,
    charsLe a b = true → charsLe b c = true → charsLe a c = true := by
  intro a
  induction a with
  | nil => intro b c _ _; rfl
  | cons x xs ih =>
      intro b c h1 h2
      cases b with
      | nil => simp [charsLe] at h1
      | cons y ys =>
          cases c with
          | nil => simp [charsLe] at h2
          | cons z zs =>
              by_cases hxy : x = y
              · subst hxy
                simp only [charsLe, if_pos rfl] at h1
                by_cases hyz : x = z
                · subst hyz
                  simp only [charsLe, if_pos rfl] at h2 ⊢
                  exact ih ys zs h1 h2
                · simp only [charsLe, if_neg hyz] at h2 ⊢
                  exact h2
              · simp only [charsLe, if_neg hxy] at h1
                have hlt1 : x < y := of_decide_eq_true h1
                by_cases hyz : y = z
                · subst hyz
                  simp [charsLe, if_neg hxy, hlt1]
                · simp only [charsLe, if_neg hyz] at h2
                  have hlt2 : y < z := of_decide_eq_true h2
                  have hxz : x < z := hlt1.trans hlt2
                  simp [charsLe, if_neg (ne_of_lt hxz), hxz]

theorem repoLe_of_not (a b : Repository) : repoLe a b = false → repoLe b a = true :=
  charsLe_of_not (repoKey a) (repoKey b)

theorem repoLe_trans (a b c : Repository) :
    repoLe a b = true → repoLe b c = true → repoLe a c = true :=
  charsLe_trans (repoKey a) (repoKey b) (repoKey c)

theorem repoLe_of_key_eq (a b : Repository) (h : repoKey a = repoKey b) :
    repoLe a b = true := by
  unfold repoLe
  rw [h]
  exact charsLe_refl _

/-! ## The modelled stable sort: permutation, sortedness, stability -/

theorem insertSorted_perm {α : Type} (le : α → α → Bool) (a : α) :
    ∀ l : List α, (insertSorted le a l).Perm (a :: l) := by
  intro l
  induction l with
  | nil => exact List.Perm.refl _
  | cons b l ih =>
      cases hab : le a b
      · simp only [insertSorted, hab, Bool.false_eq_true, if_false]
        exact (ih.cons b).trans (List.Perm.swap a b l)
      · simp [insertSorted, hab]

theorem sortStable_perm {α : Type} (le : α → α → Bool) :
    ∀ l : List α, (sortStable le l).Perm l := by
  intro l
  induction l with
  | nil => exact List.Perm.refl _
  | cons a l ih => exact (insertSorted_perm le a (sortStable le l)).trans (ih.cons a)

theorem mem_insertSorted {α : Type} (le : α → α → Bool) (a x : α) (l : List α) :
    x ∈ insertSorted le a l ↔ x = a ∨ x ∈ l := by
  rw [(insertSorted_perm le a l).mem_iff, List.mem_cons]

theorem pairwise_insertSorted {α : Type} (le : α → α → Bool)
    (htot : ∀ a b, le a b = false → le b a = true)
    (htrans : ∀ a b c, le a b = true → le b c = true → le a c = true)
    (a : α) :
    ∀ l : List α, l.Pairwise (fun x y => le x y = true) →
      (insertSorted le a l).Pairwise (fun x y => le x y = true) := by
  intro l
  induction l with
  | nil => intro _; simp [insertSorted]
  | cons b l ih =>
      intro h
      rcases List.pairwise_cons.1 h with ⟨hb, hl⟩
      cases hab : le a b
      · simp only [insertSorted, hab, Bool.false_eq_true, if_false]
        refine List.pairwise_cons.2 ⟨?_, ih hl⟩
        intro x hx
        rcases (mem_insertSorted le a x l).1 hx with hxa | hxl
        · rw [hxa]; exact htot a b hab
        · exact hb x hxl
      · simp only [insertSorted, hab, if_true]
        refine List.pairwise_cons.2 ⟨?_, h⟩
        intro x hx
        rcases List.mem_cons.1 hx with hxb | hxl
        · rw [hxb]; exact hab
        · exact htrans a b x hab (hb x hxl)

theorem pairwise_sortStable {α : Type} (le : α → α → Bool)
    (htot : ∀ a b, le a b = false → le b a = true)
    (htrans : ∀ a b c, le a b = true → le b c = true → le a c = true) :
    ∀ l : List α, (sortStable le l).Pairwise (fun x y => le x y = true) := by
  intro l
  induction l with
  | nil => simp [sortStable]
  | cons a l ih => exact pairwise_insertSorted le htot htrans a (sortStable le l) ih

/-- Stability, one key class at a time: inserting `a` never reorders the
elements sharing any fixed key, provided key-equal elements always compare
`le` (so `a` can never jump over an element of its own key class). -/
theorem filter_insertSorted_key {α κ : Type} [DecidableEq κ] (le : α → α → Bool)
    (key : α → κ) (hkey : ∀ a b, key a = key b → le a b = true) (k : κ) (a : α) :
    ∀ l : List α,
      (insertSorted le a l).filter (fun x => decide (key x = k))
        = if key a = k then a :: l.filter (fun x => decide (key x = k))
          else l.filter (fun x => decide (key x = k)) := by
  intro l
  induction l with
  | nil => by_cases h : key a = k <;> simp [insertSorted, h]
  | cons b l ih =>
      cases hab : le a b
      · simp only [insertSorted, hab, Bool.false_eq_true, if_false]
        by_cases hka : key a = k
        · have hkb : key b ≠ k := by
            intro hkb
            have : le a b = true := hkey a b (hka.trans hkb.symm)
            rw [hab] at this
            exact Bool.false_ne_true this
          simp [List.filter_cons, hka, hkb, ih]
        · simp [List.filter_cons, hka, ih]
      · simp only [insertSorted, hab, if_true]
        by_cases hka : key a = k <;> simp [List.filter_cons, hka]

/-- Stability of the modelled sort: for every key value, the sorted output
lists the elements of that key class in their original order. -/
theorem filter_sortStable_key {α κ : Type} [DecidableEq κ] (le : α → α → Bool)
    (key : α → κ) (hkey : ∀ a b, key a = key b → le a b = true) (k : κ) :
    ∀ l : List α,
      (sortStable le l).filter (fun x => decide (key x = k))
        = l.filter (fun x => decide (key x = k)) := by
  intro l
  induction l with
  | nil => rfl
  | cons a l ih =>
      rw [sortStable, filter_insertSorted_key le key hkey k a (sortStable le l), ih]
      by_cases hka : key a = k <;> simp [List.filter_cons, hka]

/-! ## The repository activity filter (C7) -/

/-- Helper: `loadActiveReposForOrganization` over an error-free fetch. -/
theorem loadActiveRepos_ok {ε : Type} (pages : List (List Repository)) (now : ℤ) (days : Nat) :
    loadActiveReposForOrganization (ε := ε) (pages.map Except.ok) now days
      = (sortStable repoLe
          (pages.flatten.filter (fun repo => decide (now - repo.pushedAt ≤ (days : ℤ) * 24))),
        none) := by
  simp [loadActiveReposForOrganization, paginate_ok]

/-- C7: with every repository page fetched successfully, the activity filter
returns no error, its output is a permutation of exactly the repositories
whose time since last push is at most `days * 24` hours (boundary
inclusive), the output is sorted ascending by lowercased name, elements with
any equal lowercased name keep their original fetch order, and an empty
qualifying set yields an empty result rather than an error. -/
theorem active_repo_filter_spec {ε : Type} (pages : List (List Repository))
    (now : ℤ) (days : Nat) :
    (loadActiveReposForOrganization (ε := ε) (pages.map Except.ok) now days).2 = none
    ∧ ((loadActiveReposForOrganization (ε := ε) (pages.map Except.ok) now days).1).Perm
        (pages.flatten.filter (fun repo => decide (now - repo.pushedAt ≤ (days : ℤ) * 24)))
    ∧ ((loadActiveReposForOrganization (ε := ε) (pages.map Except.ok) now days).1).Pairwise
        (fun a b => repoLe a b = true)
    ∧ (∀ k : List Char,
        ((loadActiveReposForOrganization (ε := ε) (pages.map Except.ok) now days).1).filter
            (fun r => decide (repoKey r = k))
          = (pages.flatten.filter
              (fun repo => decide (now - repo.pushedAt ≤ (days : ℤ) * 24))).filter
              (fun r => decide (repoKey r = k)))
    ∧ (pages.flatten.filter (fun repo => decide (now - repo.pushedAt ≤ (days : ℤ) * 24)) = []
        → (loadActiveReposForOrganization (ε := ε) (pages.map Except.ok) now days).1 = []) := by
  rw [loadActiveRepos_ok]
  refine ⟨rfl, ?_, ?_, ?_, ?_⟩
  · exact sortStable_perm repoLe _
  · exact pairwise_sortStable repoLe repoLe_of_not repoLe_trans _
  · intro k
    exact filter_sortStable_key repoLe repoKey repoLe_of_key_eq k _
  · intro h
    rw [h]
    rfl

/-- C7 witness: the spec's example at `now = 1000`, window 30 days: of the
repositories pushed 1, 40 and 5 days ago, the two qualifying ones survive,
sorted by lowercased name (`Alpha` before `beta`), with no error. -/
theorem active_repo_filter_spec_witness :
    (loadActiveReposForOrganization (ε := String) (demoRepoPageLists.map Except.ok) 1000 30).2
      = none
    ∧ (loadActiveReposForOrganization (ε := String) (demoRepoPageLists.map Except.ok) 1000 30).1
      = [repoDay5, repoDay1] :=
  ⟨(active_repo_filter_spec demoRepoPageLists 1000 30).1, by decide⟩

/-! ## The open-PR aggregation (C2) -/

/-- C2 counterexample: with one active repository listing `[youngPR, oldPR]`
and a five-day minimum age at `now = 1000`, the ten-day-old `oldPR` is
fetched and old enough, yet the output is empty: the two-day-old `youngPR`
hits the `break`, skipping every later PR of the repository.  This refutes
"every fetched open PR of age at least the threshold is included". -/
theorem young_pr_skips_older_in_same_repo :
    ((5 : ℤ) * 24 ≤ 1000 - oldPR.createdAt)
    ∧ oldPR ∈ (paginate (demoPRFetch "r")).1
    ∧ loadOpenPRsForOrganization demoRepoPages demoPRFetch 5 30 1000 = ([], none) :=
  ⟨by decide, by decide, by decide⟩

/-- Helper: the per-repository age loop is a `takeWhile`: it keeps the
longest prefix of old-enough PRs and drops everything from the first
too-young PR on. -/
theorem prFilterLoop_eq_takeWhile (now : ℤ) (d : Nat) :
    ∀ l : List PullRequest,
      prFilterLoop now d l
        = l.takeWhile (fun pr => decide ((d : ℤ) * 24 ≤ now - pr.createdAt)) := by
  intro l
  induction l with
  | nil => rfl
  | cons p rest ih =>
      by_cases h : now - p.createdAt < (d : ℤ) * 24
      · have h2 : ¬ ((d : ℤ) * 24 ≤ now - p.createdAt) := not_le.2 h
        simp [prFilterLoop, List.takeWhile_cons, h, h2]
      · have h2 : (d : ℤ) * 24 ≤ now - p.createdAt := not_lt.1 h
        simp [prFilterLoop, List.takeWhile_cons, h, h2, ih]

/-- Helper: the repository loop over error-free PR fetches accumulates each
repository's surviving prefix, in repository order. -/
theorem repoPRLoop_ok {ε : Type} (prLists : String → List (List PullRequest))
    (now : ℤ) (d : Nat) :
    ∀ (repos : List Repository) (acc : List PullRequest) (e : Option ε),
      repoPRLoop (fun nm => (prLists nm).map Except.ok) now d repos acc e
        = (acc ++ (repos.map
            (fun r => prFilterLoop now d ((prLists r.name).flatten))).flatten, e) := by
  intro repos
  induction repos with
  | nil => intro acc e; simp [repoPRLoop]
  | cons r rest ih =>
      intro acc e
      simp only [repoPRLoop, paginate_ok]
      rw [ih]
      simp

/-- C2 (amended): over error-free fetches, the organization-wide open-PR
aggregation returns, sorted ascending by creation time, the concatenation
over active repositories of the longest *prefix* of old-enough PRs: a PR of
age at least the threshold is included iff no earlier PR of its repository's
fetch order is younger than the threshold — the first younger PR ends that
repository's scan (the source's `break`), so later old PRs are discarded
too. -/
theorem open_pr_aggregation_prefix_per_repo {ε : Type}
    (repoPageLists : List (List Repository))
    (prFetchLists : String → List (List PullRequest))
    (daysPROpen daysSince : Nat) (now : ℤ) :
    loadOpenPRsForOrganization (ε := ε) (repoPageLists.map Except.ok)
        (fun name => (prFetchLists name).map Except.ok) daysPROpen daysSince now
      = (sortStable prLe
          (((loadActiveReposForOrganization (ε := ε) (repoPageLists.map Except.ok)
              now daysSince).1.map
            (fun repo => ((prFetchLists repo.name).flatten).takeWhile
              (fun pr => decide ((daysPROpen : ℤ) * 24 ≤ now - pr.createdAt)))).flatten),
        none) := by
  simp only [loadOpenPRsForOrganization, loadActiveRepos_ok, repoPRLoop_ok,
    prFilterLoop_eq_takeWhile, List.nil_append]

/-! ## The organization-wide commit scan (C8) -/

/-- Helper: the organization loop aborts with the first failing repository's
error once every repository before it succeeded. -/
theorem orgLoop_abort {ε : Type} (P : OrgProvider ε)
    (lambda : RepositoryCommit → List RepositoryCommit → Bool)
    (now : ℤ) (days : Nat) (r : Repository) (rest : List Repository) (err : ε)
    (hr : (masterForRepo P lambda now days r.name).2.2 = some err) :
    ∀ (pre : List Repository) (acc : List (String × List RepositoryCommit)) (total : Nat),
      (∀ p ∈ pre, (masterForRepo P lambda now days p.name).2.2 = none) →
      orgLoop P lambda now days (pre ++ r :: rest) acc total = (none, 0, some err) := by
  intro pre
  induction pre with
  | nil =>
      intro acc total _
      rcases hm : masterForRepo P lambda now days r.name with ⟨mc, tc, me⟩
      rw [hm] at hr
      simp only at hr
      subst hr
      simp [orgLoop, hm]
  | cons p pre' ih =>
      intro acc total hpre
      have hp := hpre p (by simp)
      rcases hm : masterForRepo P lambda now days p.name with ⟨mc, tc, me⟩
      rw [hm] at hp
      simp only at hp
      subst hp
      rw [List.cons_append]
      simp only [orgLoop, hm]
      by_cases hlen : (mc.getD []).length > 0
      · rw [if_pos hlen]
        exact ih _ _ (fun q hq => hpre q (by simp [hq]))
      · rw [if_neg hlen]
        exact ih _ _ (fun q hq => hpre q (by simp [hq]))

/-- Helper: every entry the organization loop ever emits holds a non-empty
commit list (empty ones are skipped, never added). -/
theorem orgLoop_entries_nonempty {ε : Type} (P : OrgProvider ε)
    (lambda : RepositoryCommit → List RepositoryCommit → Bool)
    (now : ℤ) (days : Nat) :
    ∀ (repos : List Repository) (acc : List (String × List RepositoryCommit))
      (total : Nat) (m : List (String × List RepositoryCommit)) (t : Nat) (e' : Option ε),
      (∀ entry ∈ acc, entry.2 ≠ []) →
      orgLoop P lambda now days repos acc total = (some m, t, e') →
      ∀ entry ∈ m, entry.2 ≠ [] := by
  intro repos
  induction repos with
  | nil =>
      intro acc total m t e' hacc heq
      simp only [orgLoop, Prod.mk.injEq, Option.some.injEq] at heq
      rw [← heq.1]
      exact hacc
  | cons r rest ih =>
      intro acc total m t e' hacc heq
      rcases hm : masterForRepo P lambda now days r.name with ⟨mc, tc, me⟩
      cases me with
      | some err =>
          rw [orgLoop, hm] at heq
          simp at heq
      | none =>
          rw [orgLoop, hm] at heq
          simp only at heq
          by_cases hlen : (mc.getD []).length > 0
          · rw [if_pos hlen] at heq
            refine ih _ _ m t e' ?_ heq
            intro entry hentry
            rcases List.mem_append.1 hentry with h | h
            · exact hacc entry h
            · rcases List.mem_singleton.1 h with rfl
              simpa using List.length_pos.1 hlen
          · rw [if_neg hlen] at heq
            exact ih _ _ m t e' hacc heq

/-- C8: in an organization-wide commit scan (empty repository argument), the
first failure among the active repositories aborts the whole scan with that
error, a nil mapping and a zero count; and the result mapping never holds an
empty entry — a repository contributing zero direct commits is omitted. -/
theorem org_scan_strict_failure_and_omission {ε : Type} (P : OrgProvider ε)
    (lambda : RepositoryCommit → List RepositoryCommit → Bool)
    (days : Nat) (now : ℤ) :
    (∀ (pre : List Repository) (r : Repository) (rest : List Repository) (err : ε),
        loadActiveReposForOrganization P.repoPages now days = (pre ++ r :: rest, none) →
        (∀ p ∈ pre, (masterForRepo P lambda now days p.name).2.2 = none) →
        (masterForRepo P lambda now days r.name).2.2 = some err →
        makeCommitsList P "" lambda days now = (none, 0, some err))
    ∧ (∀ (m : List (String × List RepositoryCommit)) (t : Nat) (e' : Option ε),
        makeCommitsList P "" lambda days now = (some m, t, e') →
        ∀ entry ∈ m, entry.2 ≠ []) := by
  constructor
  · intro pre r rest err hact hpre hr
    simp only [makeCommitsList, if_pos rfl]
    rw [hact]
    exact orgLoop_abort P lambda now days r rest err hr pre [] 0 hpre
  · intro m t e' heq entry hentry
    revert heq
    simp only [makeCommitsList, if_pos rfl]
    rcases hact : loadActiveReposForOrganization P.repoPages now days with ⟨repos, me⟩
    cases me with
    | some err =>
        intro heq
        simp at heq
    | none =>
        intro heq
        exact orgLoop_entries_nonempty P lambda now days repos [] 0 m t e'
          (by simp) heq entry hentry

/-- C8 witness: one active repository whose PR listing fails with "boom":
the organization scan returns `(nil, 0, boom)`. -/
theorem org_scan_strict_failure_witness :
    makeCommitsList demoOrgP "" isCommitInList 30 1000 = (none, 0, some "boom") :=
  (org_scan_strict_failure_and_omission demoOrgP isCommitInList 30 1000).1
    [] badRepo [] "boom" (by decide) (by simp) (by decide)

end Marvin
